import Mathlib

/-!
Verification development for the snapshot-diffing core of
src/generate_osc_from_diff.py: the data model (ElementData), the snapshot
reader (PBFReader), the diff partition, and the OSC serialization
(create_osm_element_xml, generate_osc).

Modelling conventions:
* Python dicts become association lists in insertion order; dict assignment
  is dictSet (replace in place when the key exists, append otherwise).
* Entity ids are Int (Python int), coordinates are exact rationals Rat
  (the float comparisons of the source are decided identically on the
  rational values appearing in the claims).
* datetime values become a Timestamp record of calendar fields; the single
  impure call datetime.utcnow() is passed in explicitly as a now argument.
* XML trees (xml.etree.ElementTree) become the XmlElement inductive; the
  minidom pretty printer with two-space indent becomes renderLines.
-/

/-- Calendar timestamp, the fields that the strftime format
%Y-%m-%dT%H:%M:%SZ of the source reads. -/
structure Timestamp where
  year : Nat
  month : Nat
  day : Nat
  hour : Nat
  minute : Nat
  second : Nat
deriving DecidableEq, Repr

/-- Zero-pad a numeral to two digits, as the strftime directives
%m %d %H %M %S do. -/
def pad2 (n : Nat) : String :=
  if n < 10 then "0" ++ toString n else toString n

/-- Zero-pad a numeral to four digits, as the strftime directive %Y does
for the years that occur in OSM data. -/
def pad4 (n : Nat) : String :=
  if n < 10 then "000" ++ toString n
  else if n < 100 then "00" ++ toString n
  else if n < 1000 then "0" ++ toString n
  else toString n

/-- strftime with format %Y-%m-%dT%H:%M:%SZ, as used by format_timestamp. -/
def strftimeISO (t : Timestamp) : String :=
  pad4 t.year ++ "-" ++ pad2 t.month ++ "-" ++ pad2 t.day ++ "T" ++
    pad2 t.hour ++ ":" ++ pad2 t.minute ++ ":" ++ pad2 t.second ++ "Z"

/-- format_timestamp of the source: a present timestamp is formatted with
strftime; a missing one falls back to datetime.utcnow(), passed here
explicitly as the now argument. -/
def format_timestamp (now : Timestamp) (timestamp : Option Timestamp) : String :=
  match timestamp with
  | some t => strftimeISO t
  | none => strftimeISO now

/-- ElementData of the source: the comparison-normalized view of one OSM
element. location is set exactly for nodes, nodes exactly for ways,
members exactly for relations; the constructor of the source fills the
other two with None. -/
structure ElementData where
  id : Int
  version : Nat
  timestamp : Option Timestamp
  uid : Option Int
  user : Option String
  changeset : Option Int
  tags : List (String × String)
  location : Option (Rat × Rat)
  nodes : Option (List Int)
  members : Option (List (String × Int × String))
deriving DecidableEq, Repr

/-- Python dict equality on the tags mapping (self.tags != other.tags):
the two association lists bind exactly the same keys to the same values.
Faithful to dict semantics when the key lists are duplicate-free, which
the Python dicts guarantee. -/
def tagsEq (t1 t2 : List (String × String)) : Bool :=
  t1.all (fun kv => t2.lookup kv.1 == some kv.2) &&
    t2.all (fun kv => t1.lookup kv.1 == some kv.2)

/-- The coordinate tolerance 1e-7 of ElementData.__eq__, as an exact
rational. -/
def coordTol : Rat := 1 / 10 ^ 7

/-- ElementData.__eq__ of the source: id, then tags, then the kind-specific
payload (location within tolerance for nodes, node refs for ways, members
for relations); version, timestamp, uid, user and changeset are never
read. Each payload check fires only when both sides carry the field, as
the is-not-None guards of the source do. -/
def elementEq (a b : ElementData) : Bool :=
  if a.id != b.id then false
  else if !tagsEq a.tags b.tags then false
  else if (match a.location, b.location with
    | some la, some lb =>
        decide (coordTol < |la.1 - lb.1|) || decide (coordTol < |la.2 - lb.2|)
    | _, _ => false) then false
  else if (match a.nodes, b.nodes with
    | some na, some nb => na != nb
    | _, _ => false) then false
  else if (match a.members, b.members with
    | some ma, some mb => ma != mb
    | _, _ => false) then false
  else true

/-- ElementData.is_modified of the source. -/
def is_modified (self other : ElementData) : Bool :=
  !elementEq self other

/-- One record of the raw input stream handed to the reader, tagged by
entity kind, already carrying the normalized content the ElementData
constructor extracts. -/
inductive RawElement where
  | node : ElementData → RawElement
  | way : ElementData → RawElement
  | relation : ElementData → RawElement
deriving DecidableEq, Repr

/-- A snapshot map of one kind: association list from id to record, in
insertion order, as a Python dict. -/
def Snap : Type := List (Int × ElementData)

instance : DecidableEq Snap := inferInstanceAs (DecidableEq (List (Int × ElementData)))

instance : Membership (Int × ElementData) Snap := inferInstanceAs (Membership _ (List _))

/-- Python dict assignment d[k] = v: when k is already bound its value is
replaced in place, otherwise the binding is appended. -/
def dictSet (d : List (Int × ElementData)) (k : Int) (v : ElementData) :
    List (Int × ElementData) :=
  if d.any (fun kv => kv.1 == k) then
    d.map (fun kv => if kv.1 == k then (k, v) else kv)
  else
    d ++ [(k, v)]

/-- PBFReader of the source: the three per-kind snapshot maps. -/
structure PBFReader where
  nodes : List (Int × ElementData)
  ways : List (Int × ElementData)
  relations : List (Int × ElementData)
deriving DecidableEq, Repr

/-- One callback step of PBFReader: stores the record under its id in the
map of its kind, overwriting silently as Python dict assignment does. -/
def PBFReader.step (r : PBFReader) (e : RawElement) : PBFReader :=
  match e with
  | .node v => { r with nodes := dictSet r.nodes v.id v }
  | .way v => { r with ways := dictSet r.ways v.id v }
  | .relation v => { r with relations := dictSet r.relations v.id v }

/-- PBFReader.apply_file of the source: folds the input stream through the
callbacks, starting from three empty maps. -/
def PBFReader.run (input : List RawElement) : PBFReader :=
  input.foldl PBFReader.step ⟨[], [], []⟩

/-- Membership test k in d on a Python dict, used by the dict
comprehensions of generate_osc. -/
def containsKey (d : List (Int × ElementData)) (k : Int) : Bool :=
  d.any (fun kv => kv.1 == k)

/-- The created dict of generate_osc for one kind: entries of the modified
snapshot whose id is absent from the original snapshot. -/
def createdOf (orig modified : List (Int × ElementData)) : List (Int × ElementData) :=
  modified.filter (fun kv => !containsKey orig kv.1)

/-- The deleted dict of generate_osc for one kind: entries of the original
snapshot whose id is absent from the modified snapshot. -/
def deletedOf (orig modified : List (Int × ElementData)) : List (Int × ElementData) :=
  orig.filter (fun kv => !containsKey modified kv.1)

/-- The modified dict of generate_osc for one kind: entries of the
modified snapshot whose id the original snapshot also binds, to a record
that is_modified reports unequal. The source iterates the key-set
intersection and stores the modified-snapshot record; filtering the
modified snapshot yields the same dict content. -/
def modifiedOf (orig modified : List (Int × ElementData)) : List (Int × ElementData) :=
  modified.filter (fun kv =>
    match orig.lookup kv.1 with
    | some o => is_modified kv.2 o
    | none => false)

/-- The nine dicts computed by generate_osc before serialization. -/
structure DiffResult where
  createdNodes : List (Int × ElementData)
  createdWays : List (Int × ElementData)
  createdRelations : List (Int × ElementData)
  deletedNodes : List (Int × ElementData)
  deletedWays : List (Int × ElementData)
  deletedRelations : List (Int × ElementData)
  modifiedNodes : List (Int × ElementData)
  modifiedWays : List (Int × ElementData)
  modifiedRelations : List (Int × ElementData)
deriving DecidableEq, Repr

/-- Lines 164-200 of the source: the three-way partition for each kind. -/
def computeDiff (original modified : PBFReader) : DiffResult where
  createdNodes := createdOf original.nodes modified.nodes
  createdWays := createdOf original.ways modified.ways
  createdRelations := createdOf original.relations modified.relations
  deletedNodes := deletedOf original.nodes modified.nodes
  deletedWays := deletedOf original.ways modified.ways
  deletedRelations := deletedOf original.relations modified.relations
  modifiedNodes := modifiedOf original.nodes modified.nodes
  modifiedWays := modifiedOf original.ways modified.ways
  modifiedRelations := modifiedOf original.relations modified.relations

/-- An XML element tree: tag, attributes in document order, children in
document order. No text nodes occur in the documents the source builds. -/
inductive XmlElement where
  | mk : String → List (String × String) → List XmlElement → XmlElement

/-- Tag name of an element. -/
def XmlElement.tag : XmlElement → String
  | .mk t _ _ => t

/-- Attribute list of an element. -/
def XmlElement.attrs : XmlElement → List (String × String)
  | .mk _ a _ => a

/-- Child list of an element. -/
def XmlElement.children : XmlElement → List XmlElement
  | .mk _ _ c => c

/-- Decimal rendering of a coordinate, modelling str() on the stored
value. -/
def formatCoord (q : Rat) : String :=
  toString q

/-- Python sorted() on the items of the tags dict: a stable sort of the
key/value pairs; with the duplicate-free keys of a dict the comparison
never reaches the values, so ordering by key alone is faithful. -/
def sortedTags (tags : List (String × String)) : List (String × String) :=
  tags.mergeSort (fun a b => decide (a.1 ≤ b.1))

/-- create_osm_element_xml of the source. The timestamp attribute is set
only under the truthiness guard on element_data.timestamp; user under the
truthiness guard on the string (empty string is falsy); uid and changeset
under is-not-None. now stands for datetime.utcnow() inside
format_timestamp. -/
def create_osm_element_xml (now : Timestamp) (element_data : ElementData)
    (element_type : String) : XmlElement :=
  XmlElement.mk element_type
    ([("id", toString element_data.id), ("version", toString element_data.version)]
      ++ (match element_data.timestamp with
          | some _ => [("timestamp", format_timestamp now element_data.timestamp)]
          | none => [])
      ++ (match element_data.uid with
          | some u => [("uid", toString u)]
          | none => [])
      ++ (match element_data.user with
          | some u => if u == "" then [] else [("user", u)]
          | none => [])
      ++ (match element_data.changeset with
          | some c => [("changeset", toString c)]
          | none => [])
      ++ (if element_type == "node" then
            match element_data.location with
            | some loc => [("lat", formatCoord loc.1), ("lon", formatCoord loc.2)]
            | none => []
          else []))
    ((if element_type == "way" then
        (element_data.nodes.getD []).map
          (fun r => XmlElement.mk "nd" [("ref", toString r)] [])
      else [])
      ++ (if element_type == "relation" then
            (element_data.members.getD []).map
              (fun m => XmlElement.mk "member"
                [("type", m.1), ("ref", toString m.2.1), ("role", m.2.2)] [])
          else [])
      ++ (sortedTags element_data.tags).map
          (fun kv => XmlElement.mk "tag" [("k", kv.1), ("v", kv.2)] []))

/-- Python sorted(d.values(), key=lambda x: x.id): the records of one diff
dict in ascending id order. -/
def sortByIdVals (d : List (Int × ElementData)) : List ElementData :=
  (d.map Prod.snd).mergeSort (fun a b => decide (a.id ≤ b.id))

/-- The Python truthiness test guarding each section: all three kind dicts
empty. -/
def sectionEmpty (n w r : List (Int × ElementData)) : Bool :=
  n.isEmpty && w.isEmpty && r.isEmpty

/-- The body of one create/modify/delete section: all nodes, then all
ways, then all relations, each kind in ascending id order. -/
def sectionChildren (now : Timestamp) (n w r : List (Int × ElementData)) :
    List XmlElement :=
  (sortByIdVals n).map (fun v => create_osm_element_xml now v "node")
    ++ (sortByIdVals w).map (fun v => create_osm_element_xml now v "way")
    ++ (sortByIdVals r).map (fun v => create_osm_element_xml now v "relation")

/-- Lines 202-235 of the source: the osmChange tree with its optional
create, modify and delete sections in that order. -/
def generateOscTree (original modified : PBFReader) (now : Timestamp) : XmlElement :=
  let d := computeDiff original modified
  XmlElement.mk "osmChange"
    [("version", "0.6"), ("generator", "generate_osc_from_diff.py")]
    ((if sectionEmpty d.createdNodes d.createdWays d.createdRelations then []
      else [XmlElement.mk "create" []
        (sectionChildren now d.createdNodes d.createdWays d.createdRelations)])
      ++ (if sectionEmpty d.modifiedNodes d.modifiedWays d.modifiedRelations then []
          else [XmlElement.mk "modify" []
            (sectionChildren now d.modifiedNodes d.modifiedWays d.modifiedRelations)])
      ++ (if sectionEmpty d.deletedNodes d.deletedWays d.deletedRelations then []
          else [XmlElement.mk "delete" []
            (sectionChildren now d.deletedNodes d.deletedWays d.deletedRelations)]))

/-- minidom attribute-value escaping: ampersand, angle brackets and the
double quote. -/
def escapeAttr (s : String) : String :=
  s.foldl (fun acc c =>
    if c == '&' then acc ++ "&amp;"
    else if c == '<' then acc ++ "&lt;"
    else if c == '>' then acc ++ "&gt;"
    else if c == '"' then acc ++ "&quot;"
    else acc.push c) ""

/-- Attribute rendering in document order, each as a space, the key, an
equals sign and the quoted escaped value. -/
def renderAttrs (attrs : List (String × String)) : String :=
  attrs.foldl (fun acc kv => acc ++ " " ++ kv.1 ++ "=\"" ++ escapeAttr kv.2 ++ "\"") ""

mutual

/-- minidom toprettyxml with two-space indent on a tree without text
nodes, as a list of lines: a childless element collapses to one
self-closing line, otherwise an opening line, the children indented one
level deeper, and a closing line. The blank-line filter of the source
removes nothing on such trees. -/
def renderLines (indent : String) : XmlElement → List String
  | XmlElement.mk t a [] => [indent ++ "<" ++ t ++ renderAttrs a ++ "/>"]
  | XmlElement.mk t a (c :: cs) =>
      (indent ++ "<" ++ t ++ renderAttrs a ++ ">")
        :: (renderList (indent ++ "  ") (c :: cs) ++ [indent ++ "</" ++ t ++ ">"])

/-- renderLines mapped over a child list, concatenated. -/
def renderList (indent : String) : List XmlElement → List String
  | [] => []
  | c :: cs => renderLines indent c ++ renderList indent cs

end

/-- A single quote character as a string, used in the XML declaration. -/
def singleQuote : String := String.singleton (Char.ofNat 39)

/-- The declaration line the writer places first. -/
def xmlDecl : String :=
  "<?xml version=" ++ singleQuote ++ "1.0" ++ singleQuote ++ " encoding=" ++
    singleQuote ++ "UTF-8" ++ singleQuote ++ "?>"

/-- Lines 237-254 of the source: the full output, the declaration line
followed by the pretty-printed tree, newline separated. -/
def generate_osc (original modified : PBFReader) (now : Timestamp) : String :=
  String.intercalate "\n" (xmlDecl :: renderLines "" (generateOscTree original modified now))

/-- The key list of an association list. -/
def keysOf {κ β : Type} (l : List (κ × β)) : List κ :=
  l.map Prod.fst

/-- A well-formed dict binds each key at most once. -/
def NodupKeys {κ β : Type} (l : List (κ × β)) : Prop :=
  (l.map Prod.fst).Nodup

instance {κ β : Type} [DecidableEq κ] (l : List (κ × β)) : Decidable (NodupKeys l) :=
  inferInstanceAs (Decidable ((l.map Prod.fst).Nodup))

theorem lookup_some_mem {κ β : Type} [BEq κ] [LawfulBEq κ] {l : List (κ × β)} {k : κ}
    {v : β} (h : l.lookup k = some v) : (k, v) ∈ l := by
  induction l with
  | nil => simp at h
  | cons kv rest ih =>
    obtain ⟨k₁, v₁⟩ := kv
    rw [List.lookup_cons] at h
    by_cases hk : k == k₁
    · have hkk : k = k₁ := by simpa using hk
      simp [hk] at h
      subst hkk h
      exact List.mem_cons_self _ _
    · simp [hk] at h
      exact List.mem_cons_of_mem _ (ih h)

theorem mem_lookup_of_nodup {κ β : Type} [BEq κ] [LawfulBEq κ] {l : List (κ × β)} {k : κ}
    {v : β} (hnd : NodupKeys l) (h : (k, v) ∈ l) : l.lookup k = some v := by
  induction l with
  | nil => simp at h
  | cons kv rest ih =>
    obtain ⟨k₁, v₁⟩ := kv
    rw [List.lookup_cons]
    rcases List.mem_cons.mp h with heq | hmem
    · rw [Prod.mk.injEq] at heq
      obtain ⟨h1, h2⟩ := heq
      subst h1 h2
      simp
    · have hnd' : (k₁ :: rest.map Prod.fst).Nodup := hnd
      have hk : k ≠ k₁ := by
        intro hc
        have hmem' : k ∈ rest.map Prod.fst := List.mem_map.mpr ⟨(k, v), hmem, rfl⟩
        rw [hc] at hmem'
        exact (List.nodup_cons.mp hnd').1 hmem'
      have hknd : NodupKeys rest := (List.nodup_cons.mp hnd').2
      simp [beq_eq_false_iff_ne.mpr hk]
      exact ih hknd hmem

theorem lookup_none_iff {κ β : Type} [BEq κ] [LawfulBEq κ] {l : List (κ × β)} {k : κ} :
    l.lookup k = none ↔ k ∉ keysOf l := by
  induction l with
  | nil => simp [keysOf]
  | cons kv rest ih =>
    obtain ⟨k₁, v₁⟩ := kv
    rw [List.lookup_cons]
    by_cases hk : k == k₁
    · have hkk : k = k₁ := by simpa using hk
      simp [hk, keysOf, hkk]
    · have hkk : k ≠ k₁ := by simpa using hk
      simp only [hk]
      rw [ih]
      simp [keysOf, hkk]

theorem lookup_isSome_iff {κ β : Type} [BEq κ] [LawfulBEq κ] {l : List (κ × β)} {k : κ} :
    (l.lookup k).isSome = true ↔ k ∈ keysOf l := by
  rcases h : l.lookup k with _ | v
  · simpa using (lookup_none_iff.mp h)
  · simp
    exact List.mem_map.mpr ⟨(k, v), lookup_some_mem h, rfl⟩

theorem lookup_append_of_keys_ne {κ β : Type} [BEq κ] [LawfulBEq κ]
    {l₁ l₂ : List (κ × β)} {x : κ} (h : ∀ kv ∈ l₁, kv.1 ≠ x) :
    (l₁ ++ l₂).lookup x = l₂.lookup x := by
  induction l₁ with
  | nil => simp
  | cons kv rest ih =>
    obtain ⟨k₁, v₁⟩ := kv
    have hk : x ≠ k₁ := Ne.symm (h (k₁, v₁) (List.mem_cons_self _ _))
    rw [List.cons_append, List.lookup_cons]
    simp [beq_eq_false_iff_ne.mpr hk]
    exact ih (fun kv hkv => h kv (List.mem_cons_of_mem _ hkv))

theorem lookup_perm {κ β : Type} [BEq κ] [LawfulBEq κ] {l₁ l₂ : List (κ × β)} {k : κ}
    (hnd : NodupKeys l₁) (hp : l₁.Perm l₂) : l₁.lookup k = l₂.lookup k := by
  have hnd₂ : NodupKeys l₂ := (hp.map Prod.fst).nodup_iff.mp hnd
  rcases h : l₁.lookup k with _ | v
  · rcases h₂ : l₂.lookup k with _ | w
    · rfl
    · exfalso
      have hm : (k, w) ∈ l₁ := hp.symm.subset (lookup_some_mem h₂)
      rw [mem_lookup_of_nodup hnd hm] at h
      cases h
  · exact (mem_lookup_of_nodup hnd₂ (hp.subset (lookup_some_mem h))).symm

theorem containsKey_eq_mem {d : List (Int × ElementData)} {k : Int} :
    containsKey d k = true ↔ k ∈ keysOf d := by
  constructor
  · intro h
    obtain ⟨kv, hmem, hk⟩ := List.any_eq_true.mp h
    exact List.mem_map.mpr ⟨kv, hmem, by simpa using hk⟩
  · intro h
    obtain ⟨kv, hmem, hk⟩ := List.mem_map.mp h
    exact List.any_eq_true.mpr ⟨kv, hmem, by simpa using hk⟩

theorem containsKey_perm {d₁ d₂ : List (Int × ElementData)} {k : Int}
    (hp : d₁.Perm d₂) : containsKey d₁ k = containsKey d₂ k := by
  rcases h : containsKey d₂ k
  · rcases h₁ : containsKey d₁ k
    · rfl
    · exfalso
      have hm : k ∈ keysOf d₂ := (hp.map Prod.fst).subset (containsKey_eq_mem.mp h₁)
      rw [containsKey_eq_mem.mpr hm] at h
      cases h
  · exact containsKey_eq_mem.mpr ((hp.map Prod.fst).symm.subset (containsKey_eq_mem.mp h))

/-- Every record of a well-formed snapshot map stores its own id as its
key, as PBFReader guarantees. -/
def IdsOk (d : List (Int × ElementData)) : Prop :=
  ∀ kv ∈ d, kv.2.id = kv.1

instance (d : List (Int × ElementData)) : Decidable (IdsOk d) :=
  inferInstanceAs (Decidable (∀ kv ∈ d, kv.2.id = kv.1))

/-- A well-formed snapshot map: unique keys, each record keyed by its id. -/
def SnapWF (d : List (Int × ElementData)) : Prop :=
  NodupKeys d ∧ IdsOk d

instance (d : List (Int × ElementData)) : Decidable (SnapWF d) :=
  inferInstanceAs (Decidable (NodupKeys d ∧ IdsOk d))

/-- All six snapshot maps of a diff invocation are well formed. -/
def ReaderWF (r : PBFReader) : Prop :=
  SnapWF r.nodes ∧ SnapWF r.ways ∧ SnapWF r.relations

instance (r : PBFReader) : Decidable (ReaderWF r) :=
  inferInstanceAs (Decidable (SnapWF r.nodes ∧ SnapWF r.ways ∧ SnapWF r.relations))

theorem eq_of_perm_of_key_lt_sorted {α κ : Type} [LinearOrder κ] (key : α → κ)
    {l₁ l₂ : List α} (hp : l₁.Perm l₂)
    (h₁ : l₁.Pairwise (fun a b => key a < key b))
    (h₂ : l₂.Pairwise (fun a b => key a < key b)) : l₁ = l₂ := by
  haveI : IsAntisymm α (fun a b => key a < key b) :=
    ⟨fun a b hab hba => absurd hba (lt_asymm hab)⟩
  exact List.eq_of_perm_of_sorted hp h₁ h₂

theorem mergeSort_key_pairwise_le {α κ : Type} [LinearOrder κ] (key : α → κ)
    (l : List α) :
    (l.mergeSort (fun a b => decide (key a ≤ key b))).Pairwise
      (fun a b => key a ≤ key b) := by
  have h := List.sorted_mergeSort
    (fun a b c h1 h2 => by
      have h1' : key a ≤ key b := of_decide_eq_true h1
      have h2' : key b ≤ key c := of_decide_eq_true h2
      show decide (key a ≤ key c) = true
      exact decide_eq_true (le_trans h1' h2'))
    (fun a b => by
      show (decide (key a ≤ key b) || decide (key b ≤ key a)) = true
      rcases le_total (key a) (key b) with h | h <;> simp [h])
    l
  exact h.imp (fun hab => of_decide_eq_true hab)

theorem mergeSort_key_pairwise_lt {α κ : Type} [LinearOrder κ] (key : α → κ)
    {l : List α} (hne : l.Pairwise (fun a b => key a ≠ key b)) :
    (l.mergeSort (fun a b => decide (key a ≤ key b))).Pairwise
      (fun a b => key a < key b) := by
  have hle := mergeSort_key_pairwise_le key l
  have hne' : (l.mergeSort (fun a b => decide (key a ≤ key b))).Pairwise
      (fun a b => key a ≠ key b) :=
    ((List.mergeSort_perm l _).pairwise_iff (fun h => Ne.symm h)).mpr hne
  exact hle.imp₂ (fun a b h1 h2 => lt_of_le_of_ne h1 h2) hne'

theorem mergeSort_key_eq_of_perm {α κ : Type} [LinearOrder κ] (key : α → κ)
    {l₁ l₂ : List α} (hp : l₁.Perm l₂)
    (hne : l₁.Pairwise (fun a b => key a ≠ key b)) :
    l₁.mergeSort (fun a b => decide (key a ≤ key b))
      = l₂.mergeSort (fun a b => decide (key a ≤ key b)) := by
  have hne₂ : l₂.Pairwise (fun a b => key a ≠ key b) :=
    (hp.pairwise_iff (fun h => Ne.symm h)).mp hne
  exact eq_of_perm_of_key_lt_sorted key
    ((List.mergeSort_perm l₁ _).trans (hp.trans (List.mergeSort_perm l₂ _).symm))
    (mergeSort_key_pairwise_lt key hne)
    (mergeSort_key_pairwise_lt key hne₂)

theorem pairwise_id_ne_of_wf {d : List (Int × ElementData)} (hnd : NodupKeys d)
    (hid : IdsOk d) :
    (d.map Prod.snd).Pairwise (fun a b => ElementData.id a ≠ ElementData.id b) := by
  rw [List.pairwise_map]
  have hfst : d.Pairwise (fun a b => a.1 ≠ b.1) := List.pairwise_map.mp hnd
  exact hfst.imp_of_mem (fun ha hb h => by
    rw [hid _ ha, hid _ hb]
    exact h)

theorem filterMap_lookup_keys {d : List (Int × ElementData)} (hnd : NodupKeys d) :
    (keysOf d).filterMap (fun i => d.lookup i) = d.map Prod.snd := by
  induction d with
  | nil => rfl
  | cons kv rest ih =>
    obtain ⟨k, v⟩ := kv
    have hnd' : (k :: rest.map Prod.fst).Nodup := hnd
    have hk : k ∉ rest.map Prod.fst := (List.nodup_cons.mp hnd').1
    have hndr : NodupKeys rest := (List.nodup_cons.mp hnd').2
    show (k :: keysOf rest).filterMap (fun i => ((k, v) :: rest).lookup i)
      = v :: rest.map Prod.snd
    rw [List.filterMap_cons]
    have hself : ((k, v) :: rest).lookup k = some v := by
      rw [List.lookup_cons]
      simp
    rw [hself]
    have hcongr : ∀ i ∈ keysOf rest,
        ((k, v) :: rest).lookup i = rest.lookup i := by
      intro i hi
      have hik : i ≠ k := fun hc => hk (hc ▸ hi)
      rw [List.lookup_cons]
      simp [beq_eq_false_iff_ne.mpr hik]
    rw [List.filterMap_congr hcongr, ih hndr]

theorem pairwise_filterMap_lookup {d : List (Int × ElementData)} (hid : IdsOk d)
    {ks : List Int} (hks : ks.Pairwise (fun a b => a < b)) :
    (ks.filterMap (fun i => d.lookup i)).Pairwise
      (fun a b => ElementData.id a < ElementData.id b) := by
  induction ks with
  | nil => simp
  | cons k rest ih =>
    rw [List.filterMap_cons]
    have htail := ih (List.pairwise_cons.mp hks).2
    rcases h : d.lookup k with _ | v
    · exact htail
    · refine List.Pairwise.cons ?_ htail
      intro w hw
      obtain ⟨k', hk', hlk⟩ := List.mem_filterMap.mp hw
      have hvid : v.id = k := hid _ (lookup_some_mem h)
      have hwid : w.id = k' := hid _ (lookup_some_mem hlk)
      rw [hvid, hwid]
      exact (List.pairwise_cons.mp hks).1 k' hk'

/-- sorted(d.values(), key=lambda x: x.id) agrees with sorting the ids and
looking each one up, on a well-formed dict. -/
theorem sortByIdVals_spec {d : List (Int × ElementData)} (hnd : NodupKeys d)
    (hid : IdsOk d) :
    sortByIdVals d
      = ((keysOf d).mergeSort (fun a b => decide (a ≤ b))).filterMap
          (fun i => d.lookup i) := by
  have hperm : (sortByIdVals d).Perm
      (((keysOf d).mergeSort (fun a b => decide (a ≤ b))).filterMap
          (fun i => d.lookup i)) := by
    have h1 : (sortByIdVals d).Perm (d.map Prod.snd) := List.mergeSort_perm _ _
    have h2 : (((keysOf d).mergeSort (fun a b => decide (a ≤ b))).filterMap
        (fun i => d.lookup i)).Perm ((keysOf d).filterMap (fun i => d.lookup i)) :=
      (List.mergeSort_perm (keysOf d) _).filterMap _
    rw [filterMap_lookup_keys hnd] at h2
    exact h1.trans h2.symm
  have hsorted₁ : (sortByIdVals d).Pairwise
      (fun a b => ElementData.id a < ElementData.id b) :=
    mergeSort_key_pairwise_lt ElementData.id (pairwise_id_ne_of_wf hnd hid)
  have hkeys_lt : ((keysOf d).mergeSort (fun a b => decide (a ≤ b))).Pairwise
      (fun a b => a < b) :=
    mergeSort_key_pairwise_lt (fun i => i) hnd
  have hsorted₂ := pairwise_filterMap_lookup hid hkeys_lt
  exact eq_of_perm_of_key_lt_sorted ElementData.id hperm hsorted₁ hsorted₂

theorem NodupKeys_filter {d : List (Int × ElementData)} (p : Int × ElementData → Bool)
    (hnd : NodupKeys d) : NodupKeys (d.filter p) :=
  List.Nodup.sublist (List.Sublist.map Prod.fst (List.filter_sublist d)) hnd

theorem IdsOk_filter {d : List (Int × ElementData)} (p : Int × ElementData → Bool)
    (hid : IdsOk d) : IdsOk (d.filter p) :=
  fun kv hkv => hid kv (List.mem_of_mem_filter hkv)

theorem filter_lookup_agree {m : List (Int × ElementData)}
    (p : Int × ElementData → Bool) (hnd : NodupKeys m) {i : Int}
    (hi : i ∈ keysOf (m.filter p)) :
    (m.filter p).lookup i = m.lookup i := by
  obtain ⟨kv, hmem, rfl⟩ := List.mem_map.mp hi
  obtain ⟨k, v⟩ := kv
  rw [mem_lookup_of_nodup (NodupKeys_filter p hnd) hmem,
    mem_lookup_of_nodup hnd (List.mem_of_mem_filter hmem)]

/-- Every record of the dict carries a duplicate-free tag-key list, as
Python dicts guarantee for the tags mapping. -/
def TagsWF (d : List (Int × ElementData)) : Prop :=
  ∀ kv ∈ d, NodupKeys kv.2.tags

instance (d : List (Int × ElementData)) : Decidable (TagsWF d) :=
  inferInstanceAs (Decidable (∀ kv ∈ d, NodupKeys kv.2.tags))

theorem tagsEq_refl {t : List (String × String)} (h : NodupKeys t) :
    tagsEq t t = true := by
  have hall : ∀ kv ∈ t, (t.lookup kv.1 == some kv.2) = true := by
    intro kv hkv
    have := mem_lookup_of_nodup h (show (kv.1, kv.2) ∈ t from hkv)
    simp [this]
  simp only [tagsEq, Bool.and_eq_true, List.all_eq_true]
  exact ⟨fun kv hkv => hall kv hkv, fun kv hkv => hall kv hkv⟩

theorem elementEq_refl {v : ElementData} (h : NodupKeys v.tags) :
    elementEq v v = true := by
  rcases hl : v.location with _ | la <;>
    rcases hn : v.nodes with _ | ns <;>
      rcases hm : v.members with _ | ms <;>
        simp [elementEq, tagsEq_refl h, hl, hn, hm, sub_self, abs_zero, coordTol]

theorem mem_keysOf_filter {m : List (Int × ElementData)}
    {p : Int × ElementData → Bool} {k : Int} :
    k ∈ keysOf (m.filter p) ↔ ∃ v, (k, v) ∈ m ∧ p (k, v) = true := by
  constructor
  · intro h
    obtain ⟨kv, hmem, rfl⟩ := List.mem_map.mp h
    obtain ⟨hm, hp⟩ := List.mem_filter.mp hmem
    exact ⟨kv.2, hm, hp⟩
  · rintro ⟨v, hm, hp⟩
    exact List.mem_map.mpr ⟨(k, v), List.mem_filter.mpr ⟨hm, hp⟩, rfl⟩

/-- The partition property of one entity kind: created ids are exactly
those present only in the modified snapshot, deleted ids those present
only in the original, modified ids those present in both with
semantically unequal records, and an id bound in both snapshots to
semantically equal records lies in none of the three dicts. -/
def PartitionOk (o m : List (Int × ElementData)) : Prop :=
  (∀ k, k ∈ keysOf (createdOf o m) ↔ (k ∈ keysOf m ∧ k ∉ keysOf o)) ∧
  (∀ k, k ∈ keysOf (deletedOf o m) ↔ (k ∈ keysOf o ∧ k ∉ keysOf m)) ∧
  (∀ k, k ∈ keysOf (modifiedOf o m) ↔
    ∃ v w, m.lookup k = some v ∧ o.lookup k = some w ∧ elementEq v w = false) ∧
  (∀ k v w, m.lookup k = some v → o.lookup k = some w → elementEq v w = true →
    k ∉ keysOf (createdOf o m) ∧ k ∉ keysOf (deletedOf o m) ∧
      k ∉ keysOf (modifiedOf o m))

theorem not_containsKey_iff {o : List (Int × ElementData)} {k : Int} :
    (!containsKey o k) = true ↔ k ∉ keysOf o := by
  rw [Bool.not_eq_true']
  constructor
  · intro h hmem
    rw [containsKey_eq_mem.mpr hmem] at h
    cases h
  · intro h
    rcases hc : containsKey o k
    · rfl
    · exact absurd (containsKey_eq_mem.mp hc) h

theorem partitionOk_of_nodup {o m : List (Int × ElementData)}
    (hnd : NodupKeys m) : PartitionOk o m := by
  have hcreated : ∀ k, k ∈ keysOf (createdOf o m) ↔ (k ∈ keysOf m ∧ k ∉ keysOf o) := by
    intro k
    rw [createdOf, mem_keysOf_filter]
    constructor
    · rintro ⟨v, hm, hp⟩
      exact ⟨List.mem_map.mpr ⟨(k, v), hm, rfl⟩, not_containsKey_iff.mp hp⟩
    · rintro ⟨hkm, hko⟩
      obtain ⟨⟨k', v⟩, hmem, hfst⟩ := List.mem_map.mp hkm
      cases hfst
      exact ⟨v, hmem, not_containsKey_iff.mpr hko⟩
  have hdeleted : ∀ k, k ∈ keysOf (deletedOf o m) ↔ (k ∈ keysOf o ∧ k ∉ keysOf m) := by
    intro k
    rw [deletedOf, mem_keysOf_filter]
    constructor
    · rintro ⟨v, hm, hp⟩
      exact ⟨List.mem_map.mpr ⟨(k, v), hm, rfl⟩, not_containsKey_iff.mp hp⟩
    · rintro ⟨hko, hkm⟩
      obtain ⟨⟨k', v⟩, hmem, hfst⟩ := List.mem_map.mp hko
      cases hfst
      exact ⟨v, hmem, not_containsKey_iff.mpr hkm⟩
  have hmodified : ∀ k, k ∈ keysOf (modifiedOf o m) ↔
      ∃ v w, m.lookup k = some v ∧ o.lookup k = some w ∧ elementEq v w = false := by
    intro k
    rw [modifiedOf, mem_keysOf_filter]
    constructor
    · rintro ⟨v, hm, hp⟩
      rcases ho : o.lookup k with _ | w
      · rw [show ((k, v) : Int × ElementData).1 = k from rfl, ho] at hp
        cases hp
      · rw [show ((k, v) : Int × ElementData).1 = k from rfl, ho] at hp
        refine ⟨v, w, mem_lookup_of_nodup hnd hm, rfl, ?_⟩
        have hp' : (!elementEq v w) = true := hp
        rwa [Bool.not_eq_true'] at hp'
    · rintro ⟨v, w, hmv, how, heq⟩
      refine ⟨v, lookup_some_mem hmv, ?_⟩
      show (match o.lookup k with
        | some o' => is_modified v o'
        | none => false) = true
      rw [how]
      simp [is_modified, heq]
  refine ⟨hcreated, hdeleted, hmodified, ?_⟩
  intro k v w hmv how heq
  have hkm : k ∈ keysOf m := lookup_isSome_iff.mp (by rw [hmv]; rfl)
  have hko : k ∈ keysOf o := lookup_isSome_iff.mp (by rw [how]; rfl)
  refine ⟨fun hc => ((hcreated k).mp hc).2 hko,
    fun hc => ((hdeleted k).mp hc).2 hkm, fun hc => ?_⟩
  obtain ⟨v', w', hmv', how', hne⟩ := (hmodified k).mp hc
  rw [hmv] at hmv'
  rw [how] at how'
  cases Option.some.inj hmv'
  cases Option.some.inj how'
  simp [heq] at hne

theorem createdOf_self (s : List (Int × ElementData)) : createdOf s s = [] := by
  rw [createdOf, List.filter_eq_nil_iff]
  intro kv hkv hc
  exact (not_containsKey_iff.mp hc) (List.mem_map.mpr ⟨kv, hkv, rfl⟩)

theorem deletedOf_self (s : List (Int × ElementData)) : deletedOf s s = [] := by
  rw [deletedOf, List.filter_eq_nil_iff]
  intro kv hkv hc
  exact (not_containsKey_iff.mp hc) (List.mem_map.mpr ⟨kv, hkv, rfl⟩)

theorem modifiedOf_self {s : List (Int × ElementData)} (hnd : NodupKeys s)
    (htags : TagsWF s) : modifiedOf s s = [] := by
  rw [modifiedOf, List.filter_eq_nil_iff]
  rintro ⟨k, v⟩ hkv hc
  have hc' : (match s.lookup k with
    | some o => is_modified v o
    | none => false) = true := hc
  rw [mem_lookup_of_nodup hnd hkv] at hc'
  have hne : (!elementEq v v) = true := hc'
  rw [elementEq_refl (htags _ hkv)] at hne
  cases hne

/-- Sample timestamp used by the concrete witnesses. -/
def tsA : Timestamp := ⟨2024, 1, 2, 3, 4, 5⟩

/-- A sample point record. -/
def nodeRec (i : Int) (lat lon : Rat) (tags : List (String × String)) : ElementData :=
  ⟨i, 1, some tsA, some 7, some "alice", some 11, tags, some (lat, lon), none, none⟩

/-- A sample polyline record. -/
def wayRec (i : Int) (refs : List Int) (tags : List (String × String)) : ElementData :=
  ⟨i, 2, none, none, none, none, tags, none, some refs, none⟩

/-- A sample relation record. -/
def relRec (i : Int) (ms : List (String × Int × String))
    (tags : List (String × String)) : ElementData :=
  ⟨i, 3, none, none, none, none, tags, none, none, some ms⟩

/-- A sample original snapshot. -/
def readerA : PBFReader :=
  ⟨[(1, nodeRec 1 10 20 [("name", "A")]), (3, nodeRec 3 5 5 [("amenity", "bench")])],
    [(10, wayRec 10 [1, 2, 3] [])],
    [(20, relRec 20 [("n", 1, "stop")] [("type", "route")])]⟩

/-- A sample modified snapshot. -/
def readerB : PBFReader :=
  ⟨[(1, nodeRec 1 10 20 [("name", "B")]), (2, nodeRec 2 5 5 [("shop", "yes")])],
    [(10, wayRec 10 [1, 3, 2] [])],
    [(20, relRec 20 [("n", 1, "stop")] [("type", "route")])]⟩

/-- C1: for every pair of snapshots and every entity kind, the diff
partitions ids into created (present only in the modified snapshot),
deleted (present only in the original snapshot), and modified (present in
both with semantically unequal records); an id present in both snapshots
with semantically equal records appears in none of the three dicts. -/
theorem C1_diff_partition (original modified : PBFReader)
    (hn : NodupKeys modified.nodes) (hw : NodupKeys modified.ways)
    (hr : NodupKeys modified.relations) :
    PartitionOk original.nodes modified.nodes ∧
      PartitionOk original.ways modified.ways ∧
        PartitionOk original.relations modified.relations :=
  ⟨partitionOk_of_nodup hn, partitionOk_of_nodup hw, partitionOk_of_nodup hr⟩

/-- Witness for C1 at a concrete pair of snapshots. -/
theorem C1_diff_partition_witness :
    PartitionOk readerA.nodes readerB.nodes ∧
      PartitionOk readerA.ways readerB.ways ∧
        PartitionOk readerA.relations readerB.relations :=
  C1_diff_partition readerA readerB (by decide) (by decide) (by decide)

/-- C8: diffing a snapshot against itself yields empty created, deleted
and modified dicts for every kind. -/
theorem C8_diff_self_empty (r : PBFReader) (hn : NodupKeys r.nodes)
    (hw : NodupKeys r.ways) (hr : NodupKeys r.relations)
    (htn : TagsWF r.nodes) (htw : TagsWF r.ways) (htr : TagsWF r.relations) :
    computeDiff r r = ⟨[], [], [], [], [], [], [], [], []⟩ := by
  simp [computeDiff, createdOf_self, deletedOf_self, modifiedOf_self hn htn,
    modifiedOf_self hw htw, modifiedOf_self hr htr]

/-- Witness for C8 at a concrete snapshot. -/
theorem C8_diff_self_empty_witness :
    computeDiff readerA readerA = ⟨[], [], [], [], [], [], [], [], []⟩ :=
  C8_diff_self_empty readerA (by decide) (by decide) (by decide) (by decide)
    (by decide) (by decide)

/-- C9: for every pair of snapshots and every kind, the created ids of
the diff in one direction are exactly the deleted ids of the diff in the
opposite direction, and conversely; both dicts filter the same snapshot
with the same key test, so the id lists coincide. -/
theorem C9_diff_symmetry (a b : PBFReader) :
    keysOf (computeDiff a b).createdNodes = keysOf (computeDiff b a).deletedNodes ∧
    keysOf (computeDiff a b).createdWays = keysOf (computeDiff b a).deletedWays ∧
    keysOf (computeDiff a b).createdRelations
      = keysOf (computeDiff b a).deletedRelations ∧
    keysOf (computeDiff a b).deletedNodes = keysOf (computeDiff b a).createdNodes ∧
    keysOf (computeDiff a b).deletedWays = keysOf (computeDiff b a).createdWays ∧
    keysOf (computeDiff a b).deletedRelations
      = keysOf (computeDiff b a).createdRelations :=
  ⟨rfl, rfl, rfl, rfl, rfl, rfl⟩

theorem elementEq_point_iff {a b : ElementData} {la lb : Rat × Rat}
    (hla : a.location = some la) (hlb : b.location = some lb)
    (hna : a.nodes = none) (hnb : b.nodes = none)
    (hma : a.members = none) (hmb : b.members = none)
    (hid : a.id = b.id) :
    elementEq a b = true ↔
      (tagsEq a.tags b.tags = true ∧
        |la.1 - lb.1| ≤ coordTol ∧ |la.2 - lb.2| ≤ coordTol) := by
  by_cases ht : tagsEq a.tags b.tags = true
  · simp [elementEq, hid, hla, hlb, hna, hnb, hma, hmb, ht, not_or, not_lt]
  · simp [elementEq, hid, hla, hlb, hna, hnb, hma, hmb, ht]

theorem elementEq_way_iff {a b : ElementData} {na nb : List Int}
    (hna : a.nodes = some na) (hnb : b.nodes = some nb)
    (hla : a.location = none) (hlb : b.location = none)
    (hma : a.members = none) (hmb : b.members = none)
    (hid : a.id = b.id) :
    elementEq a b = true ↔ (tagsEq a.tags b.tags = true ∧ na = nb) := by
  by_cases ht : tagsEq a.tags b.tags = true
  · simp [elementEq, hid, hla, hlb, hna, hnb, hma, hmb, ht]
  · simp [elementEq, hid, hla, hlb, hna, hnb, hma, hmb, ht]

theorem elementEq_relation_iff {a b : ElementData}
    {ma mb : List (String × Int × String)}
    (hma : a.members = some ma) (hmb : b.members = some mb)
    (hla : a.location = none) (hlb : b.location = none)
    (hna : a.nodes = none) (hnb : b.nodes = none)
    (hid : a.id = b.id) :
    elementEq a b = true ↔ (tagsEq a.tags b.tags = true ∧ ma = mb) := by
  by_cases ht : tagsEq a.tags b.tags = true
  · simp [elementEq, hid, hla, hlb, hna, hnb, hma, hmb, ht]
  · simp [elementEq, hid, hla, hlb, hna, hnb, hma, hmb, ht]

theorem tagsEq_iff_same_pairs {t1 t2 : List (String × String)}
    (h1 : NodupKeys t1) (h2 : NodupKeys t2) :
    tagsEq t1 t2 = true ↔ (∀ kv : String × String, kv ∈ t1 ↔ kv ∈ t2) := by
  rw [tagsEq, Bool.and_eq_true, List.all_eq_true, List.all_eq_true]
  constructor
  · rintro ⟨hf, hb⟩ kv
    constructor
    · intro hm
      exact lookup_some_mem (by simpa using hf kv hm)
    · intro hm
      exact lookup_some_mem (by simpa using hb kv hm)
  · intro h
    constructor
    · intro kv hm
      simpa using mem_lookup_of_nodup h2 (show (kv.1, kv.2) ∈ t2 from (h kv).mp hm)
    · intro kv hm
      simpa using mem_lookup_of_nodup h1 (show (kv.1, kv.2) ∈ t1 from (h kv).mpr hm)

/-- C2: two records of the same kind and id are semantically equal iff
their tag mappings agree as sets of key/value pairs and, per kind, point
coordinates agree within 1e-7 in each axis, polyline point-ref sequences
are equal, relation member sequences are equal role included; the
version, timestamp, uid, user and changeset fields never affect the
comparison. -/
theorem C2_semantic_equality :
    (∀ a b : ElementData, ∀ la lb : Rat × Rat,
      a.location = some la → b.location = some lb → a.nodes = none →
      b.nodes = none → a.members = none → b.members = none → a.id = b.id →
      (elementEq a b = true ↔
        (tagsEq a.tags b.tags = true ∧
          |la.1 - lb.1| ≤ coordTol ∧ |la.2 - lb.2| ≤ coordTol))) ∧
    (∀ a b : ElementData, ∀ na nb : List Int,
      a.nodes = some na → b.nodes = some nb → a.location = none →
      b.location = none → a.members = none → b.members = none → a.id = b.id →
      (elementEq a b = true ↔ (tagsEq a.tags b.tags = true ∧ na = nb))) ∧
    (∀ a b : ElementData, ∀ ma mb : List (String × Int × String),
      a.members = some ma → b.members = some mb → a.location = none →
      b.location = none → a.nodes = none → b.nodes = none → a.id = b.id →
      (elementEq a b = true ↔ (tagsEq a.tags b.tags = true ∧ ma = mb))) ∧
    (∀ t1 t2 : List (String × String), NodupKeys t1 → NodupKeys t2 →
      (tagsEq t1 t2 = true ↔ (∀ kv : String × String, kv ∈ t1 ↔ kv ∈ t2))) ∧
    (∀ a b : ElementData, ∀ v : Nat, ∀ ts : Option Timestamp, ∀ u : Option Int,
      ∀ us : Option String, ∀ c : Option Int,
      elementEq { a with
        version := v, timestamp := ts, uid := u,
        user := us, changeset := c } b = elementEq a b ∧
      elementEq a { b with
        version := v, timestamp := ts, uid := u,
        user := us, changeset := c } = elementEq a b) := by
  refine ⟨?_, ?_, ?_, ?_, ?_⟩
  · intro a b la lb hla hlb hna hnb hma hmb hid
    exact elementEq_point_iff hla hlb hna hnb hma hmb hid
  · intro a b na nb hna hnb hla hlb hma hmb hid
    exact elementEq_way_iff hna hnb hla hlb hma hmb hid
  · intro a b ma mb hma hmb hla hlb hna hnb hid
    exact elementEq_relation_iff hma hmb hla hlb hna hnb hid
  · intro t1 t2 h1 h2
    exact tagsEq_iff_same_pairs h1 h2
  · intro a b v ts u us c
    exact ⟨rfl, rfl⟩

/-- Witness for C2: the point clause at two concrete records differing
only in provenance metadata and tag value. -/
theorem C2_semantic_equality_witness :
    elementEq (nodeRec 1 10 20 [("name", "A")]) (nodeRec 1 10 20 [("name", "A")])
        = true ↔
      (tagsEq [("name", "A")] [("name", "A")] = true ∧
        |(10 : Rat) - 10| ≤ coordTol ∧ |(20 : Rat) - 20| ≤ coordTol) :=
  C2_semantic_equality.1 (nodeRec 1 10 20 [("name", "A")])
    (nodeRec 1 10 20 [("name", "A")]) (10, 20) (10, 20) rfl rfl rfl rfl rfl rfl rfl

/-- C7: two point records with the same id and identical well-formed tag
mappings are semantically equal when both coordinates differ by exactly
1e-8 degrees, and semantically unequal when both differ by 1e-6 degrees.
Coordinates are modelled as exact rationals; the float comparisons of the
source decide these comparisons identically. -/
theorem C7_point_tolerance :
    ∀ a b : ElementData, ∀ la lb : Rat × Rat,
      a.location = some la → b.location = some lb → a.nodes = none →
      b.nodes = none → a.members = none → b.members = none → a.id = b.id →
      a.tags = b.tags → NodupKeys a.tags →
      ((|la.1 - lb.1| = 1 / 10 ^ 8 ∧ |la.2 - lb.2| = 1 / 10 ^ 8 →
          elementEq a b = true) ∧
        (|la.1 - lb.1| = 1 / 10 ^ 6 ∧ |la.2 - lb.2| = 1 / 10 ^ 6 →
          elementEq a b = false)) := by
  intro a b la lb hla hlb hna hnb hma hmb hid htags hnd
  have ht : tagsEq a.tags b.tags = true := by
    rw [← htags]
    exact tagsEq_refl hnd
  have hiff := elementEq_point_iff hla hlb hna hnb hma hmb hid
  constructor
  · rintro ⟨h1, h2⟩
    refine hiff.mpr ⟨ht, ?_, ?_⟩
    · rw [h1]
      norm_num [coordTol]
    · rw [h2]
      norm_num [coordTol]
  · rintro ⟨h1, h2⟩
    rcases heq : elementEq a b with _ | _
    · rfl
    · exfalso
      have := (hiff.mp heq).2.1
      rw [h1] at this
      norm_num [coordTol] at this

/-- Witness for C7 at concrete coordinate pairs. -/
theorem C7_point_tolerance_witness :
    ((|(10 : Rat) - (10 + 1 / 10 ^ 8)| = 1 / 10 ^ 8 ∧
        |(20 : Rat) - (20 + 1 / 10 ^ 8)| = 1 / 10 ^ 8 →
        elementEq (nodeRec 5 10 20 [("name", "A")])
          (nodeRec 5 (10 + 1 / 10 ^ 8) (20 + 1 / 10 ^ 8) [("name", "A")]) = true) ∧
      (|(10 : Rat) - (10 + 1 / 10 ^ 8)| = 1 / 10 ^ 6 ∧
        |(20 : Rat) - (20 + 1 / 10 ^ 8)| = 1 / 10 ^ 6 →
        elementEq (nodeRec 5 10 20 [("name", "A")])
          (nodeRec 5 (10 + 1 / 10 ^ 8) (20 + 1 / 10 ^ 8) [("name", "A")]) = false)) :=
  C7_point_tolerance (nodeRec 5 10 20 [("name", "A")])
    (nodeRec 5 (10 + 1 / 10 ^ 8) (20 + 1 / 10 ^ 8) [("name", "A")])
    (10, 20) (10 + 1 / 10 ^ 8, 20 + 1 / 10 ^ 8) rfl rfl rfl rfl rfl rfl rfl rfl
    (by decide)

theorem lookup_map_replace_hit {d : List (Int × ElementData)} {k : Int}
    {v : ElementData} (hany : d.any (fun kv => kv.1 == k) = true) :
    (d.map (fun kv => if kv.1 == k then (k, v) else kv)).lookup k = some v := by
  induction d with
  | nil => cases hany
  | cons kv rest ih =>
    by_cases hk : kv.1 = k
    · rw [List.map_cons, if_pos (by simpa using hk), List.lookup_cons]
      simp
    · rw [List.map_cons, if_neg (by simpa using hk), List.lookup_cons]
      have h2 : (k == kv.1) = false := by simpa using Ne.symm hk
      simp only [h2]
      apply ih
      rw [List.any_cons] at hany
      simpa [show (kv.1 == k) = false from by simpa using hk] using hany

theorem lookup_map_replace_miss {d : List (Int × ElementData)} {k i : Int}
    {v : ElementData} (hik : i ≠ k) :
    (d.map (fun kv => if kv.1 == k then (k, v) else kv)).lookup i = d.lookup i := by
  induction d with
  | nil => rfl
  | cons kv rest ih =>
    by_cases hk : kv.1 = k
    · rw [List.map_cons, if_pos (by simpa using hk), List.lookup_cons, List.lookup_cons]
      have h1 : (i == k) = false := by simpa using hik
      have h2 : (i == kv.1) = false := by
        simpa using (hk ▸ hik : i ≠ kv.1)
      simp only [h1, h2]
      exact ih
    · rw [List.map_cons, if_neg (by simpa using hk), List.lookup_cons, List.lookup_cons]
      by_cases hik₁ : i = kv.1
      · simp [hik₁]
      · simp only [show (i == kv.1) = false from by simpa using hik₁]
        exact ih

theorem lookup_append_single_miss {d : List (Int × ElementData)} {k i : Int}
    {v : ElementData} (hik : i ≠ k) :
    (d ++ [(k, v)]).lookup i = d.lookup i := by
  induction d with
  | nil =>
    rw [List.nil_append, List.lookup_cons]
    simp only [show (i == k) = false from by simpa using hik]
  | cons kv rest ih =>
    rw [List.cons_append, List.lookup_cons, List.lookup_cons]
    by_cases hik₁ : i = kv.1
    · simp [hik₁]
    · simp only [show (i == kv.1) = false from by simpa using hik₁]
      exact ih

theorem lookup_dictSet (d : List (Int × ElementData)) (k : Int) (v : ElementData)
    (i : Int) :
    (dictSet d k v).lookup i = if i = k then some v else d.lookup i := by
  rw [dictSet]
  by_cases hany : d.any (fun kv => kv.1 == k) = true
  · rw [if_pos hany]
    by_cases hik : i = k
    · subst hik
      rw [if_pos rfl]
      exact lookup_map_replace_hit hany
    · rw [if_neg hik]
      exact lookup_map_replace_miss hik
  · rw [if_neg hany]
    by_cases hik : i = k
    · subst hik
      have hkeys : ∀ kv ∈ d, kv.1 ≠ i := by
        intro kv hkv hc
        exact hany (List.any_eq_true.mpr ⟨kv, hkv, by simpa using hc⟩)
      rw [if_pos rfl, lookup_append_of_keys_ne hkeys, List.lookup_cons]
      simp
    · rw [if_neg hik]
      exact lookup_append_single_miss hik

/-- The last node record with the given id in an input stream, if any. -/
def lastNodeRecord (input : List RawElement) (i : Int) : Option ElementData :=
  input.foldl (fun acc e =>
    match e with
    | .node v => if v.id = i then some v else acc
    | _ => acc) none

/-- The last way record with the given id in an input stream, if any. -/
def lastWayRecord (input : List RawElement) (i : Int) : Option ElementData :=
  input.foldl (fun acc e =>
    match e with
    | .way v => if v.id = i then some v else acc
    | _ => acc) none

/-- The last relation record with the given id in an input stream, if
any. -/
def lastRelationRecord (input : List RawElement) (i : Int) : Option ElementData :=
  input.foldl (fun acc e =>
    match e with
    | .relation v => if v.id = i then some v else acc
    | _ => acc) none

theorem run_nodes_lookup_aux (input : List RawElement) (r : PBFReader) (i : Int) :
    (input.foldl PBFReader.step r).nodes.lookup i
      = input.foldl (fun acc e =>
          match e with
          | .node v => if v.id = i then some v else acc
          | _ => acc) (r.nodes.lookup i) := by
  induction input generalizing r with
  | nil => rfl
  | cons e rest ih =>
    rw [List.foldl_cons, List.foldl_cons, ih]
    congr 1
    cases e with
    | node v =>
      show (dictSet r.nodes v.id v).lookup i
        = if v.id = i then some v else r.nodes.lookup i
      rw [lookup_dictSet]
      by_cases h : i = v.id
      · simp [h]
      · rw [if_neg h, if_neg (fun hc => h (Eq.symm hc))]
    | way v => rfl
    | relation v => rfl

theorem run_ways_lookup_aux (input : List RawElement) (r : PBFReader) (i : Int) :
    (input.foldl PBFReader.step r).ways.lookup i
      = input.foldl (fun acc e =>
          match e with
          | .way v => if v.id = i then some v else acc
          | _ => acc) (r.ways.lookup i) := by
  induction input generalizing r with
  | nil => rfl
  | cons e rest ih =>
    rw [List.foldl_cons, List.foldl_cons, ih]
    congr 1
    cases e with
    | way v =>
      show (dictSet r.ways v.id v).lookup i
        = if v.id = i then some v else r.ways.lookup i
      rw [lookup_dictSet]
      by_cases h : i = v.id
      · simp [h]
      · rw [if_neg h, if_neg (fun hc => h (Eq.symm hc))]
    | node v => rfl
    | relation v => rfl

theorem run_relations_lookup_aux (input : List RawElement) (r : PBFReader)
    (i : Int) :
    (input.foldl PBFReader.step r).relations.lookup i
      = input.foldl (fun acc e =>
          match e with
          | .relation v => if v.id = i then some v else acc
          | _ => acc) (r.relations.lookup i) := by
  induction input generalizing r with
  | nil => rfl
  | cons e rest ih =>
    rw [List.foldl_cons, List.foldl_cons, ih]
    congr 1
    cases e with
    | relation v =>
      show (dictSet r.relations v.id v).lookup i
        = if v.id = i then some v else r.relations.lookup i
      rw [lookup_dictSet]
      by_cases h : i = v.id
      · simp [h]
      · rw [if_neg h, if_neg (fun hc => h (Eq.symm hc))]
    | node v => rfl
    | way v => rfl

/-- C10: when the same (kind, id) appears more than once in one input
stream, the snapshot built by the reader binds that id to the last-seen
record of that kind: each later record replaces the earlier one, and all
later stages read the snapshot through this lookup. -/
theorem C10_last_seen_wins (input : List RawElement) (i : Int) :
    (PBFReader.run input).nodes.lookup i = lastNodeRecord input i ∧
    (PBFReader.run input).ways.lookup i = lastWayRecord input i ∧
    (PBFReader.run input).relations.lookup i = lastRelationRecord input i :=
  ⟨run_nodes_lookup_aux input ⟨[], [], []⟩ i,
    run_ways_lookup_aux input ⟨[], [], []⟩ i,
    run_relations_lookup_aux input ⟨[], [], []⟩ i⟩

theorem dictSet_dictSet (d : List (Int × ElementData)) (k : Int)
    (v w : ElementData) : dictSet (dictSet d k v) k w = dictSet d k w := by
  by_cases hany : d.any (fun kv => kv.1 == k) = true
  · have hinner : dictSet d k v
        = d.map (fun kv => if kv.1 == k then (k, v) else kv) := by
      rw [dictSet, if_pos hany]
    rw [hinner]
    have hany2 : (d.map (fun kv => if kv.1 == k then (k, v) else kv)).any
        (fun kv => kv.1 == k) = true := by
      obtain ⟨kv, hkv, hb⟩ := List.any_eq_true.mp hany
      refine List.any_eq_true.mpr ⟨(k, v), List.mem_map.mpr ⟨kv, hkv, ?_⟩, by simp⟩
      rw [if_pos hb]
    rw [dictSet, if_pos hany2, dictSet, if_pos hany, List.map_map]
    apply List.map_congr_left
    intro kv hkv
    by_cases hk : kv.1 = k
    · simp [Function.comp, hk]
    · have hb : (kv.1 == k) = false := by simpa using hk
      simp [Function.comp, hb]
  · have hinner : dictSet d k v = d ++ [(k, v)] := by
      rw [dictSet, if_neg hany]
    rw [hinner]
    have hany2 : ((d ++ [(k, v)]).any (fun kv => kv.1 == k)) = true :=
      List.any_eq_true.mpr ⟨(k, v), List.mem_append_right _ (List.mem_singleton.mpr rfl),
        by simp⟩
    rw [dictSet, if_pos hany2, dictSet, if_neg hany, List.map_append]
    have hmap : d.map (fun kv => if kv.1 == k then (k, w) else kv) = d := by
      have : ∀ kv ∈ d, (if kv.1 == k then (k, w) else kv) = kv := by
        intro kv hkv
        have hne : kv.1 ≠ k := by
          intro hc
          exact hany (List.any_eq_true.mpr ⟨kv, hkv, by simpa using hc⟩)
        rw [if_neg (by simpa using hne)]
      rw [List.map_congr_left this]
      exact List.map_id' d
    rw [hmap]
    simp

/-- Concrete duplicate-node records for the duplicate-id scenarios. -/
def dupRecA : ElementData := nodeRec 1 10 20 [("name", "A")]

/-- The second record of the duplicate pair, same id, different tags. -/
def dupRecB : ElementData := nodeRec 1 10 20 [("name", "B")]

/-- An input stream carrying the same (kind, id) twice. -/
def dupInput : List RawElement := [RawElement.node dupRecA, RawElement.node dupRecB]

/-- Counterexample to C3: the reader, run on a stream in which node id 1
appears twice, completes and returns a snapshot holding only the later
record; nothing fails and the earlier record is silently overwritten. -/
theorem C3_counterexample :
    dupRecA.id = dupRecB.id ∧ dupRecA ≠ dupRecB ∧
      PBFReader.run dupInput = ⟨[(1, dupRecB)], [], []⟩ := by
  refine ⟨rfl, by decide, by decide⟩

/-- C3 amended: building a snapshot from a stream in which the same
(kind, id) appears twice does not abort; the earlier record is silently
discarded and the run proceeds exactly as if only the later record had
been present. -/
theorem C3_duplicate_overwrites (pre post : List RawElement)
    (v w : ElementData) (h : v.id = w.id) :
    PBFReader.run (pre ++ RawElement.node v :: RawElement.node w :: post)
      = PBFReader.run (pre ++ RawElement.node w :: post) ∧
    PBFReader.run (pre ++ RawElement.way v :: RawElement.way w :: post)
      = PBFReader.run (pre ++ RawElement.way w :: post) ∧
    PBFReader.run (pre ++ RawElement.relation v :: RawElement.relation w :: post)
      = PBFReader.run (pre ++ RawElement.relation w :: post) := by
  refine ⟨?_, ?_, ?_⟩ <;>
  · rw [PBFReader.run, PBFReader.run, List.foldl_append, List.foldl_append,
      List.foldl_cons, List.foldl_cons, List.foldl_cons]
    congr 1
    simp [PBFReader.step, h, dictSet_dictSet]

/-- Witness for the amended C3 at a concrete duplicate pair. -/
theorem C3_duplicate_overwrites_witness :
    PBFReader.run [RawElement.node dupRecA, RawElement.node dupRecB]
      = PBFReader.run [RawElement.node dupRecB] ∧
    PBFReader.run [RawElement.way dupRecA, RawElement.way dupRecB]
      = PBFReader.run [RawElement.way dupRecB] ∧
    PBFReader.run [RawElement.relation dupRecA, RawElement.relation dupRecB]
      = PBFReader.run [RawElement.relation dupRecB] :=
  C3_duplicate_overwrites [] [] dupRecA dupRecB rfl

theorem keys_uid_segment (u : Option Int) :
    ∀ kv ∈ ((match u with
      | some x => [("uid", toString x)]
      | none => []) : List (String × String)), kv.1 = "uid" := by
  cases u <;> simp

theorem keys_user_segment (u : Option String) :
    ∀ kv ∈ ((match u with
      | some x => if x == "" then [] else [("user", x)]
      | none => []) : List (String × String)), kv.1 = "user" := by
  cases u with
  | none => simp
  | some x =>
    by_cases h : x == ""
    · simp [h]
    · simp [h]

theorem keys_changeset_segment (c : Option Int) :
    ∀ kv ∈ ((match c with
      | some x => [("changeset", toString x)]
      | none => []) : List (String × String)), kv.1 = "changeset" := by
  cases c <;> simp

theorem keys_latlon_segment (k : String) (loc : Option (Rat × Rat)) :
    ∀ kv ∈ (if k == "node" then
        ((match loc with
          | some l => [("lat", formatCoord l.1), ("lon", formatCoord l.2)]
          | none => []) : List (String × String))
      else []), kv.1 = "lat" ∨ kv.1 = "lon" := by
  by_cases h : k == "node"
  · cases loc <;> simp [h]
  · simp [h]

/-- C4 amended: when the timestamp field is present the serialized
timestamp attribute carries it in the %Y-%m-%dT%H:%M:%SZ format; when it
is absent no timestamp attribute is emitted at all, and the serialized
element does not depend on the clock. format_timestamp alone substitutes
the current time for a missing timestamp, but the serializer only calls
it under a presence guard. -/
theorem C4_timestamp_attribute :
    (∀ now : Timestamp, ∀ e : ElementData, ∀ t : Timestamp, ∀ k : String,
      e.timestamp = some t →
      (create_osm_element_xml now e k).attrs.lookup "timestamp"
        = some (strftimeISO t)) ∧
    (∀ now : Timestamp, ∀ e : ElementData, ∀ k : String,
      e.timestamp = none →
      ∀ kv ∈ (create_osm_element_xml now e k).attrs, kv.1 ≠ "timestamp") ∧
    (∀ now t : Timestamp, format_timestamp now (some t) = strftimeISO t) ∧
    (∀ now : Timestamp, format_timestamp now none = strftimeISO now) ∧
    (∀ now nx : Timestamp, ∀ e : ElementData, ∀ k : String,
      create_osm_element_xml now e k = create_osm_element_xml nx e k) := by
  refine ⟨?_, ?_, fun now t => rfl, fun now => rfl, ?_⟩
  · intro now e t k hts
    simp [create_osm_element_xml, XmlElement.attrs, hts, format_timestamp,
      List.lookup_cons]
  · intro now e k hts kv hkv
    simp only [create_osm_element_xml, XmlElement.attrs, hts, List.nil_append,
      List.cons_append, List.mem_append, List.mem_cons, List.not_mem_nil,
      or_false, false_or] at hkv
    rcases hkv with rfl | rfl | ((h | h) | h) | h
    · simp
    · simp
    · rw [keys_uid_segment e.uid kv h]
      simp
    · rw [keys_user_segment e.user kv h]
      simp
    · rw [keys_changeset_segment e.changeset kv h]
      simp
    · rcases keys_latlon_segment k e.location kv h with h1 | h1 <;> rw [h1] <;> simp
  · intro now nx e k
    rcases hts : e.timestamp with _ | t <;>
      simp [create_osm_element_xml, hts, format_timestamp]

/-- A record without a timestamp, for the C4 counterexample. -/
def noTsRec : ElementData := wayRec 4 [1, 2] [("highway", "residential")]

/-- Counterexample to C4: serializing a record whose timestamp is absent
emits no timestamp attribute at all, instead of substituting the current
time. -/
theorem C4_counterexample :
    noTsRec.timestamp = none ∧
      (create_osm_element_xml tsA noTsRec "way").attrs.lookup "timestamp" = none :=
  ⟨rfl, by decide⟩

/-- Witness for the amended C4 at a concrete record carrying a
timestamp. -/
theorem C4_timestamp_attribute_witness :
    (create_osm_element_xml tsA (nodeRec 1 10 20 []) "node").attrs.lookup "timestamp"
      = some (strftimeISO tsA) :=
  C4_timestamp_attribute.1 tsA (nodeRec 1 10 20 []) tsA "node" rfl

/-- Spec-side description of one kind block of a section: sort the ids of
the partition dict ascending and render the record each id denotes in the
given snapshot. -/
def specKind (now : Timestamp) (snap : List (Int × ElementData))
    (part : List (Int × ElementData)) (kind : String) : List XmlElement :=
  ((keysOf part).mergeSort (fun a b => decide (a ≤ b))).filterMap
    (fun i => (snap.lookup i).map (fun v => create_osm_element_xml now v kind))

/-- Spec-side description of one section: all points, then all polylines,
then all relations, each drawn from the given snapshot in ascending id
order of its partition dict. -/
def specSection (now : Timestamp) (snap : PBFReader)
    (n w r : List (Int × ElementData)) : List XmlElement :=
  specKind now snap.nodes n "node" ++ specKind now snap.ways w "way"
    ++ specKind now snap.relations r "relation"

theorem sectionKind_eq_specKind {snap part : List (Int × ElementData)}
    (now : Timestamp) (kind : String)
    (hndp : NodupKeys part) (hidp : IdsOk part)
    (hagree : ∀ i ∈ keysOf part, part.lookup i = snap.lookup i) :
    (sortByIdVals part).map (fun v => create_osm_element_xml now v kind)
      = specKind now snap part kind := by
  rw [sortByIdVals_spec hndp hidp, List.map_filterMap, specKind]
  apply List.filterMap_congr
  intro i hi
  rw [List.mem_mergeSort] at hi
  rw [hagree i hi]

theorem sectionChildren_eq_specSection (now : Timestamp) (snap : PBFReader)
    (n w r : List (Int × ElementData))
    (hn : NodupKeys n) (hin : IdsOk n)
    (han : ∀ i ∈ keysOf n, n.lookup i = snap.nodes.lookup i)
    (hw : NodupKeys w) (hiw : IdsOk w)
    (haw : ∀ i ∈ keysOf w, w.lookup i = snap.ways.lookup i)
    (hr : NodupKeys r) (hir : IdsOk r)
    (har : ∀ i ∈ keysOf r, r.lookup i = snap.relations.lookup i) :
    sectionChildren now n w r = specSection now snap n w r := by
  rw [sectionChildren, specSection,
    sectionKind_eq_specKind now "node" hn hin han,
    sectionKind_eq_specKind now "way" hw hiw haw,
    sectionKind_eq_specKind now "relation" hr hir har]

theorem intercalate_go_head (s : String) :
    ∀ (as : List String) (a : String),
      ∃ r, String.intercalate.go a s as = a ++ r := by
  intro as
  induction as with
  | nil =>
    intro a
    exact ⟨"", by simp [String.intercalate.go]⟩
  | cons b bs ih =>
    intro a
    obtain ⟨r, hr⟩ := ih (a ++ s ++ b)
    refine ⟨s ++ b ++ r, ?_⟩
    show String.intercalate.go (a ++ s ++ b) s bs = a ++ (s ++ b ++ r)
    rw [hr]
    simp [String.append_assoc]

theorem generate_osc_starts_with_decl (o m : PBFReader) (now : Timestamp) :
    ∃ rest : String, generate_osc o m now = xmlDecl ++ rest := by
  show ∃ rest,
    String.intercalate "\n" (xmlDecl :: renderLines "" (generateOscTree o m now))
      = xmlDecl ++ rest
  exact intercalate_go_head "\n" _ xmlDecl

/-- C5: the serialized document has its optional top-level sections in
the fixed order create, modify, delete, each present exactly when one of
its three kind-partitions is nonempty; each present section lists all
points, then all polylines, then all relations in ascending id order,
create and modify drawn from the modified snapshot, delete from the
original snapshot; an entirely empty diff yields no sections at all; and
the output text begins with the declaration line. -/
theorem C5_document_structure (original modified : PBFReader) (now : Timestamp)
    (ho1 : SnapWF original.nodes) (ho2 : SnapWF original.ways)
    (ho3 : SnapWF original.relations) (hm1 : SnapWF modified.nodes)
    (hm2 : SnapWF modified.ways) (hm3 : SnapWF modified.relations) :
    ((generateOscTree original modified now).children
      = (if sectionEmpty (createdOf original.nodes modified.nodes)
            (createdOf original.ways modified.ways)
            (createdOf original.relations modified.relations) then []
         else [XmlElement.mk "create" []
           (specSection now modified (createdOf original.nodes modified.nodes)
             (createdOf original.ways modified.ways)
             (createdOf original.relations modified.relations))])
        ++ (if sectionEmpty (modifiedOf original.nodes modified.nodes)
              (modifiedOf original.ways modified.ways)
              (modifiedOf original.relations modified.relations) then []
            else [XmlElement.mk "modify" []
              (specSection now modified (modifiedOf original.nodes modified.nodes)
                (modifiedOf original.ways modified.ways)
                (modifiedOf original.relations modified.relations))])
        ++ (if sectionEmpty (deletedOf original.nodes modified.nodes)
              (deletedOf original.ways modified.ways)
              (deletedOf original.relations modified.relations) then []
            else [XmlElement.mk "delete" []
              (specSection now original (deletedOf original.nodes modified.nodes)
                (deletedOf original.ways modified.ways)
                (deletedOf original.relations modified.relations))])) ∧
    (sectionEmpty (createdOf original.nodes modified.nodes)
        (createdOf original.ways modified.ways)
        (createdOf original.relations modified.relations) = true →
      sectionEmpty (modifiedOf original.nodes modified.nodes)
        (modifiedOf original.ways modified.ways)
        (modifiedOf original.relations modified.relations) = true →
      sectionEmpty (deletedOf original.nodes modified.nodes)
        (deletedOf original.ways modified.ways)
        (deletedOf original.relations modified.relations) = true →
      (generateOscTree original modified now).children = []) ∧
    (∃ rest : String, generate_osc original modified now = xmlDecl ++ rest) := by
  have hc : sectionChildren now (createdOf original.nodes modified.nodes)
      (createdOf original.ways modified.ways)
      (createdOf original.relations modified.relations)
      = specSection now modified (createdOf original.nodes modified.nodes)
        (createdOf original.ways modified.ways)
        (createdOf original.relations modified.relations) :=
    sectionChildren_eq_specSection now modified _ _ _
      (NodupKeys_filter _ hm1.1) (IdsOk_filter _ hm1.2)
      (fun i hi => filter_lookup_agree _ hm1.1 hi)
      (NodupKeys_filter _ hm2.1) (IdsOk_filter _ hm2.2)
      (fun i hi => filter_lookup_agree _ hm2.1 hi)
      (NodupKeys_filter _ hm3.1) (IdsOk_filter _ hm3.2)
      (fun i hi => filter_lookup_agree _ hm3.1 hi)
  have hm : sectionChildren now (modifiedOf original.nodes modified.nodes)
      (modifiedOf original.ways modified.ways)
      (modifiedOf original.relations modified.relations)
      = specSection now modified (modifiedOf original.nodes modified.nodes)
        (modifiedOf original.ways modified.ways)
        (modifiedOf original.relations modified.relations) :=
    sectionChildren_eq_specSection now modified _ _ _
      (NodupKeys_filter _ hm1.1) (IdsOk_filter _ hm1.2)
      (fun i hi => filter_lookup_agree _ hm1.1 hi)
      (NodupKeys_filter _ hm2.1) (IdsOk_filter _ hm2.2)
      (fun i hi => filter_lookup_agree _ hm2.1 hi)
      (NodupKeys_filter _ hm3.1) (IdsOk_filter _ hm3.2)
      (fun i hi => filter_lookup_agree _ hm3.1 hi)
  have hd : sectionChildren now (deletedOf original.nodes modified.nodes)
      (deletedOf original.ways modified.ways)
      (deletedOf original.relations modified.relations)
      = specSection now original (deletedOf original.nodes modified.nodes)
        (deletedOf original.ways modified.ways)
        (deletedOf original.relations modified.relations) :=
    sectionChildren_eq_specSection now original _ _ _
      (NodupKeys_filter _ ho1.1) (IdsOk_filter _ ho1.2)
      (fun i hi => filter_lookup_agree _ ho1.1 hi)
      (NodupKeys_filter _ ho2.1) (IdsOk_filter _ ho2.2)
      (fun i hi => filter_lookup_agree _ ho2.1 hi)
      (NodupKeys_filter _ ho3.1) (IdsOk_filter _ ho3.2)
      (fun i hi => filter_lookup_agree _ ho3.1 hi)
  refine ⟨?_, ?_, generate_osc_starts_with_decl original modified now⟩
  · show (if sectionEmpty (createdOf original.nodes modified.nodes)
        (createdOf original.ways modified.ways)
        (createdOf original.relations modified.relations) then []
      else [XmlElement.mk "create" []
        (sectionChildren now (createdOf original.nodes modified.nodes)
          (createdOf original.ways modified.ways)
          (createdOf original.relations modified.relations))])
      ++ (if sectionEmpty (modifiedOf original.nodes modified.nodes)
            (modifiedOf original.ways modified.ways)
            (modifiedOf original.relations modified.relations) then []
          else [XmlElement.mk "modify" []
            (sectionChildren now (modifiedOf original.nodes modified.nodes)
              (modifiedOf original.ways modified.ways)
              (modifiedOf original.relations modified.relations))])
      ++ (if sectionEmpty (deletedOf original.nodes modified.nodes)
            (deletedOf original.ways modified.ways)
            (deletedOf original.relations modified.relations) then []
          else [XmlElement.mk "delete" []
            (sectionChildren now (deletedOf original.nodes modified.nodes)
              (deletedOf original.ways modified.ways)
              (deletedOf original.relations modified.relations))]) = _
    rw [hc, hm, hd]
  · intro h1 h2 h3
    show (if sectionEmpty (createdOf original.nodes modified.nodes)
        (createdOf original.ways modified.ways)
        (createdOf original.relations modified.relations) then []
      else [XmlElement.mk "create" []
        (sectionChildren now (createdOf original.nodes modified.nodes)
          (createdOf original.ways modified.ways)
          (createdOf original.relations modified.relations))])
      ++ (if sectionEmpty (modifiedOf original.nodes modified.nodes)
            (modifiedOf original.ways modified.ways)
            (modifiedOf original.relations modified.relations) then []
          else [XmlElement.mk "modify" []
            (sectionChildren now (modifiedOf original.nodes modified.nodes)
              (modifiedOf original.ways modified.ways)
              (modifiedOf original.relations modified.relations))])
      ++ (if sectionEmpty (deletedOf original.nodes modified.nodes)
            (deletedOf original.ways modified.ways)
            (deletedOf original.relations modified.relations) then []
          else [XmlElement.mk "delete" []
            (sectionChildren now (deletedOf original.nodes modified.nodes)
              (deletedOf original.ways modified.ways)
              (deletedOf original.relations modified.relations))]) = []
    rw [if_pos h1, if_pos h2, if_pos h3]
    rfl

/-- Witness for C5 at concrete snapshots. -/
theorem C5_document_structure_witness :
    ((generateOscTree readerA readerB tsA).children
      = (if sectionEmpty (createdOf readerA.nodes readerB.nodes)
            (createdOf readerA.ways readerB.ways)
            (createdOf readerA.relations readerB.relations) then []
         else [XmlElement.mk "create" []
           (specSection tsA readerB (createdOf readerA.nodes readerB.nodes)
             (createdOf readerA.ways readerB.ways)
             (createdOf readerA.relations readerB.relations))])
        ++ (if sectionEmpty (modifiedOf readerA.nodes readerB.nodes)
              (modifiedOf readerA.ways readerB.ways)
              (modifiedOf readerA.relations readerB.relations) then []
            else [XmlElement.mk "modify" []
              (specSection tsA readerB (modifiedOf readerA.nodes readerB.nodes)
                (modifiedOf readerA.ways readerB.ways)
                (modifiedOf readerA.relations readerB.relations))])
        ++ (if sectionEmpty (deletedOf readerA.nodes readerB.nodes)
              (deletedOf readerA.ways readerB.ways)
              (deletedOf readerA.relations readerB.relations) then []
            else [XmlElement.mk "delete" []
              (specSection tsA readerA (deletedOf readerA.nodes readerB.nodes)
                (deletedOf readerA.ways readerB.ways)
                (deletedOf readerA.relations readerB.relations))])) ∧
    (sectionEmpty (createdOf readerA.nodes readerB.nodes)
        (createdOf readerA.ways readerB.ways)
        (createdOf readerA.relations readerB.relations) = true →
      sectionEmpty (modifiedOf readerA.nodes readerB.nodes)
        (modifiedOf readerA.ways readerB.ways)
        (modifiedOf readerA.relations readerB.relations) = true →
      sectionEmpty (deletedOf readerA.nodes readerB.nodes)
        (deletedOf readerA.ways readerB.ways)
        (deletedOf readerA.relations readerB.relations) = true →
      (generateOscTree readerA readerB tsA).children = []) ∧
    (∃ rest : String, generate_osc readerA readerB tsA = xmlDecl ++ rest) :=
  C5_document_structure readerA readerB tsA (by decide) (by decide) (by decide)
    (by decide) (by decide) (by decide)

/-- Two readers hold the same logical snapshots: each of the three maps
binds the same entries, possibly in a different insertion order. -/
def ReaderPerm (r1 r2 : PBFReader) : Prop :=
  r1.nodes.Perm r2.nodes ∧ r1.ways.Perm r2.ways ∧ r1.relations.Perm r2.relations

theorem isEmpty_eq_of_perm {d1 d2 : List (Int × ElementData)} (h : d1.Perm d2) :
    d1.isEmpty = d2.isEmpty := by
  rcases d1 with _ | ⟨a, l⟩
  · rw [List.Perm.eq_nil h.symm]
  · rcases d2 with _ | ⟨b, m⟩
    · exact absurd (List.Perm.eq_nil h) (by simp)
    · rfl

theorem sortByIdVals_eq_of_perm {d1 d2 : List (Int × ElementData)}
    (h : d1.Perm d2) (hnd : NodupKeys d1) (hid : IdsOk d1) :
    sortByIdVals d1 = sortByIdVals d2 :=
  mergeSort_key_eq_of_perm ElementData.id (h.map Prod.snd)
    (pairwise_id_ne_of_wf hnd hid)

theorem createdOf_perm {o1 m1 o2 m2 : List (Int × ElementData)}
    (hop : o1.Perm o2) (hmp : m1.Perm m2) :
    (createdOf o1 m1).Perm (createdOf o2 m2) := by
  have hstep : createdOf o2 m2 = m2.filter (fun kv => !containsKey o1 kv.1) := by
    rw [createdOf]
    apply List.filter_congr
    intro kv hkv
    rw [containsKey_perm hop]
  rw [hstep]
  exact hmp.filter _

theorem deletedOf_perm {o1 m1 o2 m2 : List (Int × ElementData)}
    (hop : o1.Perm o2) (hmp : m1.Perm m2) :
    (deletedOf o1 m1).Perm (deletedOf o2 m2) := by
  have hstep : deletedOf o2 m2 = o2.filter (fun kv => !containsKey m1 kv.1) := by
    rw [deletedOf]
    apply List.filter_congr
    intro kv hkv
    rw [containsKey_perm hmp]
  rw [hstep]
  exact hop.filter _

theorem modifiedOf_perm {o1 m1 o2 m2 : List (Int × ElementData)}
    (hndo : NodupKeys o1) (hop : o1.Perm o2) (hmp : m1.Perm m2) :
    (modifiedOf o1 m1).Perm (modifiedOf o2 m2) := by
  have hstep : modifiedOf o2 m2 = m2.filter (fun kv =>
      match o1.lookup kv.1 with
      | some o => is_modified kv.2 o
      | none => false) := by
    rw [modifiedOf]
    apply List.filter_congr
    intro kv hkv
    rw [lookup_perm hndo hop]
  rw [hstep]
  exact hmp.filter _

theorem generateOscTree_perm_invariant (o1 m1 o2 m2 : PBFReader) (now : Timestamp)
    (hwo : ReaderWF o1) (hwm : ReaderWF m1)
    (hpo : ReaderPerm o1 o2) (hpm : ReaderPerm m1 m2) :
    generateOscTree o1 m1 now = generateOscTree o2 m2 now := by
  obtain ⟨hpo1, hpo2, hpo3⟩ := hpo
  obtain ⟨hpm1, hpm2, hpm3⟩ := hpm
  have pc1 := createdOf_perm hpo1 hpm1
  have pc2 := createdOf_perm hpo2 hpm2
  have pc3 := createdOf_perm hpo3 hpm3
  have pd1 := deletedOf_perm hpo1 hpm1
  have pd2 := deletedOf_perm hpo2 hpm2
  have pd3 := deletedOf_perm hpo3 hpm3
  have pm1 := modifiedOf_perm hwo.1.1 hpo1 hpm1
  have pm2 := modifiedOf_perm hwo.2.1.1 hpo2 hpm2
  have pm3 := modifiedOf_perm hwo.2.2.1 hpo3 hpm3
  have sc1 := sortByIdVals_eq_of_perm pc1 (NodupKeys_filter _ hwm.1.1)
    (IdsOk_filter _ hwm.1.2)
  have sc2 := sortByIdVals_eq_of_perm pc2 (NodupKeys_filter _ hwm.2.1.1)
    (IdsOk_filter _ hwm.2.1.2)
  have sc3 := sortByIdVals_eq_of_perm pc3 (NodupKeys_filter _ hwm.2.2.1)
    (IdsOk_filter _ hwm.2.2.2)
  have sd1 := sortByIdVals_eq_of_perm pd1 (NodupKeys_filter _ hwo.1.1)
    (IdsOk_filter _ hwo.1.2)
  have sd2 := sortByIdVals_eq_of_perm pd2 (NodupKeys_filter _ hwo.2.1.1)
    (IdsOk_filter _ hwo.2.1.2)
  have sd3 := sortByIdVals_eq_of_perm pd3 (NodupKeys_filter _ hwo.2.2.1)
    (IdsOk_filter _ hwo.2.2.2)
  have sm1 := sortByIdVals_eq_of_perm pm1 (NodupKeys_filter _ hwm.1.1)
    (IdsOk_filter _ hwm.1.2)
  have sm2 := sortByIdVals_eq_of_perm pm2 (NodupKeys_filter _ hwm.2.1.1)
    (IdsOk_filter _ hwm.2.1.2)
  have sm3 := sortByIdVals_eq_of_perm pm3 (NodupKeys_filter _ hwm.2.2.1)
    (IdsOk_filter _ hwm.2.2.2)
  have hsecc : sectionChildren now (createdOf o1.nodes m1.nodes)
      (createdOf o1.ways m1.ways) (createdOf o1.relations m1.relations)
      = sectionChildren now (createdOf o2.nodes m2.nodes)
        (createdOf o2.ways m2.ways) (createdOf o2.relations m2.relations) := by
    rw [sectionChildren, sectionChildren, sc1, sc2, sc3]
  have hsecm : sectionChildren now (modifiedOf o1.nodes m1.nodes)
      (modifiedOf o1.ways m1.ways) (modifiedOf o1.relations m1.relations)
      = sectionChildren now (modifiedOf o2.nodes m2.nodes)
        (modifiedOf o2.ways m2.ways) (modifiedOf o2.relations m2.relations) := by
    rw [sectionChildren, sectionChildren, sm1, sm2, sm3]
  have hsecd : sectionChildren now (deletedOf o1.nodes m1.nodes)
      (deletedOf o1.ways m1.ways) (deletedOf o1.relations m1.relations)
      = sectionChildren now (deletedOf o2.nodes m2.nodes)
        (deletedOf o2.ways m2.ways) (deletedOf o2.relations m2.relations) := by
    rw [sectionChildren, sectionChildren, sd1, sd2, sd3]
  have hec : sectionEmpty (createdOf o1.nodes m1.nodes) (createdOf o1.ways m1.ways)
      (createdOf o1.relations m1.relations)
      = sectionEmpty (createdOf o2.nodes m2.nodes) (createdOf o2.ways m2.ways)
        (createdOf o2.relations m2.relations) := by
    rw [sectionEmpty, sectionEmpty, isEmpty_eq_of_perm pc1, isEmpty_eq_of_perm pc2,
      isEmpty_eq_of_perm pc3]
  have hem : sectionEmpty (modifiedOf o1.nodes m1.nodes) (modifiedOf o1.ways m1.ways)
      (modifiedOf o1.relations m1.relations)
      = sectionEmpty (modifiedOf o2.nodes m2.nodes) (modifiedOf o2.ways m2.ways)
        (modifiedOf o2.relations m2.relations) := by
    rw [sectionEmpty, sectionEmpty, isEmpty_eq_of_perm pm1, isEmpty_eq_of_perm pm2,
      isEmpty_eq_of_perm pm3]
  have hed : sectionEmpty (deletedOf o1.nodes m1.nodes) (deletedOf o1.ways m1.ways)
      (deletedOf o1.relations m1.relations)
      = sectionEmpty (deletedOf o2.nodes m2.nodes) (deletedOf o2.ways m2.ways)
        (deletedOf o2.relations m2.relations) := by
    rw [sectionEmpty, sectionEmpty, isEmpty_eq_of_perm pd1, isEmpty_eq_of_perm pd2,
      isEmpty_eq_of_perm pd3]
  show XmlElement.mk "osmChange"
      [("version", "0.6"), ("generator", "generate_osc_from_diff.py")]
      ((if sectionEmpty (createdOf o1.nodes m1.nodes) (createdOf o1.ways m1.ways)
          (createdOf o1.relations m1.relations) then []
        else [XmlElement.mk "create" []
          (sectionChildren now (createdOf o1.nodes m1.nodes)
            (createdOf o1.ways m1.ways) (createdOf o1.relations m1.relations))])
        ++ (if sectionEmpty (modifiedOf o1.nodes m1.nodes) (modifiedOf o1.ways m1.ways)
              (modifiedOf o1.relations m1.relations) then []
            else [XmlElement.mk "modify" []
              (sectionChildren now (modifiedOf o1.nodes m1.nodes)
                (modifiedOf o1.ways m1.ways) (modifiedOf o1.relations m1.relations))])
        ++ (if sectionEmpty (deletedOf o1.nodes m1.nodes) (deletedOf o1.ways m1.ways)
              (deletedOf o1.relations m1.relations) then []
            else [XmlElement.mk "delete" []
              (sectionChildren now (deletedOf o1.nodes m1.nodes)
                (deletedOf o1.ways m1.ways) (deletedOf o1.relations m1.relations))]))
    = XmlElement.mk "osmChange"
      [("version", "0.6"), ("generator", "generate_osc_from_diff.py")]
      ((if sectionEmpty (createdOf o2.nodes m2.nodes) (createdOf o2.ways m2.ways)
          (createdOf o2.relations m2.relations) then []
        else [XmlElement.mk "create" []
          (sectionChildren now (createdOf o2.nodes m2.nodes)
            (createdOf o2.ways m2.ways) (createdOf o2.relations m2.relations))])
        ++ (if sectionEmpty (modifiedOf o2.nodes m2.nodes) (modifiedOf o2.ways m2.ways)
              (modifiedOf o2.relations m2.relations) then []
            else [XmlElement.mk "modify" []
              (sectionChildren now (modifiedOf o2.nodes m2.nodes)
                (modifiedOf o2.ways m2.ways) (modifiedOf o2.relations m2.relations))])
        ++ (if sectionEmpty (deletedOf o2.nodes m2.nodes) (deletedOf o2.ways m2.ways)
              (deletedOf o2.relations m2.relations) then []
            else [XmlElement.mk "delete" []
              (sectionChildren now (deletedOf o2.nodes m2.nodes)
                (deletedOf o2.ways m2.ways) (deletedOf o2.relations m2.relations))]))
  rw [hec, hem, hed, hsecc, hsecm, hsecd]

/-- C6: serialization is deterministic. Serializing the same inputs twice
gives byte-identical output, output depends only on the logical content
of the two snapshots and not on dict iteration order, and a record whose
tag mapping is stored in a different insertion order renders to the same
element; together, identical logical diffs serialize to byte-identical
documents. -/
theorem C6_deterministic_serialization :
    (∀ o m : PBFReader, ∀ now : Timestamp,
      generate_osc o m now = generate_osc o m now) ∧
    (∀ o1 m1 o2 m2 : PBFReader, ∀ now : Timestamp,
      ReaderWF o1 → ReaderWF m1 → ReaderPerm o1 o2 → ReaderPerm m1 m2 →
      generate_osc o1 m1 now = generate_osc o2 m2 now) ∧
    (∀ now : Timestamp, ∀ e : ElementData, ∀ t : List (String × String),
      ∀ k : String, t.Perm e.tags → NodupKeys e.tags →
      create_osm_element_xml now { e with tags := t } k
        = create_osm_element_xml now e k) := by
  refine ⟨fun o m now => rfl, ?_, ?_⟩
  · intro o1 m1 o2 m2 now hwo hwm hpo hpm
    show String.intercalate "\n"
        (xmlDecl :: renderLines "" (generateOscTree o1 m1 now))
      = String.intercalate "\n"
        (xmlDecl :: renderLines "" (generateOscTree o2 m2 now))
    rw [generateOscTree_perm_invariant o1 m1 o2 m2 now hwo hwm hpo hpm]
  · intro now e t k hperm hnd
    have hndt : t.Pairwise (fun a b => a.1 ≠ b.1) :=
      List.pairwise_map.mp ((hperm.map Prod.fst).nodup_iff.mpr hnd)
    have hsorted : sortedTags t = sortedTags e.tags :=
      mergeSort_key_eq_of_perm Prod.fst hperm hndt
    simp [create_osm_element_xml, hsorted]

/-- The original sample snapshot with its node dict in another insertion
order. -/
def readerApermuted : PBFReader :=
  ⟨[(3, nodeRec 3 5 5 [("amenity", "bench")]), (1, nodeRec 1 10 20 [("name", "A")])],
    [(10, wayRec 10 [1, 2, 3] [])],
    [(20, relRec 20 [("n", 1, "stop")] [("type", "route")])]⟩

/-- Witness for C6: permuting the node dict of the original snapshot
leaves the serialized output unchanged. -/
theorem C6_deterministic_serialization_witness :
    generate_osc readerA readerB tsA = generate_osc readerApermuted readerB tsA :=
  C6_deterministic_serialization.2.1 readerA readerB readerApermuted readerB tsA
    (by decide) (by decide) ⟨by decide, by decide, by decide⟩
    ⟨List.Perm.refl _, List.Perm.refl _, List.Perm.refl _⟩
